import Mathlib

/-!
Verification of scripts/aurora_plate_scraper.py.

Shallow embedding notes.  Python strings are modelled as Lean `String` /
`List Char`; Python builtins used by the script (str.strip, str.lower, int(),
float(), the `re` patterns) are embedded as executable functions over
character lists, restricted to ASCII where the builtin consults Unicode
tables (whitespace, digits, case folding) — no claim depends on the non-ASCII
behaviour of those builtins.  The HTML tree produced by BeautifulSoup is
modelled by the inductive `Node`; network transport and the label parser are
modelled as oracles returning `Except String _`, which embeds Python
exception propagation (the error value is the exception's message, `str(exc)`).
-/

set_option autoImplicit false

namespace Aurora

universe u v w

/-! ### Character and string utilities (Python builtins) -/

/-- The ASCII space character. -/
def sp : Char := Char.ofNat 32

/-- ASCII whitespace, modelling the whitespace set of `str.strip` and regex `\s`. -/
def isPySpace (c : Char) : Bool :=
  c == sp || c.toNat == 9 || c.toNat == 10 || c.toNat == 11 || c.toNat == 12 || c.toNat == 13

/-- ASCII decimal digit, modelling regex `[0-9]` (and `\d`, restricted to ASCII). -/
def isAsciiDigit (c : Char) : Bool := 48 ≤ c.toNat && c.toNat ≤ 57

/-- `str.lower`, restricted to ASCII letters. -/
def pyLowerChar (c : Char) : Char :=
  if 65 ≤ c.toNat && c.toNat ≤ 90 then Char.ofNat (c.toNat + 32) else c

/-- `str.lstrip()`. -/
def pyLStrip (l : List Char) : List Char := l.dropWhile isPySpace

/-- `str.rstrip()`: drop the maximal trailing run of whitespace. -/
def pyRStrip : List Char → List Char
  | [] => []
  | c :: cs =>
    let r := pyRStrip cs
    if r.isEmpty && isPySpace c then [] else c :: r

/-- `str.strip()`. -/
def pyStrip (l : List Char) : List Char := pyRStrip (pyLStrip l)

/-- `str.strip()` on `String`. -/
def stripS (s : String) : String := String.mk (pyStrip s.toList)

/-- `str.lower()` on `String` (ASCII). -/
def lowerS (s : String) : String := String.mk (s.toList.map pyLowerChar)

def plusC : Char := Char.ofNat 43
def commaC : Char := Char.ofNat 44
def minusC : Char := Char.ofNat 45
def dotC : Char := Char.ofNat 46
def pctC : Char := Char.ofNat 37
def uscC : Char := Char.ofNat 95
def lparC : Char := Char.ofNat 40
def rparC : Char := Char.ofNat 41

/-- Value of a list of ASCII digits read in base 10. -/
def digitsVal (ds : List Char) : Nat := ds.foldl (fun a c => a * 10 + (c.toNat - 48)) 0

/-- Continue scanning a Python numeric-literal digit part after at least one
digit has been read: further digits, with single underscores allowed between
digits (`int`/`float` accept `1_2` but not `1__2`, `_1` or `1_`).
Returns the digits read and the unconsumed rest. -/
def scanMoreDigits : List Char → List Char × List Char
  | [] => ([], [])
  | c :: cs =>
    if isAsciiDigit c then
      let p := scanMoreDigits cs
      (c :: p.1, p.2)
    else if c == uscC then
      match cs with
      | d :: rest =>
        if isAsciiDigit d then
          let p := scanMoreDigits rest
          (d :: p.1, p.2)
        else ([], c :: cs)
      | [] => ([], [c])
    else ([], c :: cs)

/-- Python `int(s)` (base 10, ASCII): optional surrounding whitespace, an
optional sign, then a digit part. -/
def pyInt? (l : List Char) : Option Int :=
  let t := pyStrip l
  let st :=
    match t with
    | c :: cs => if c == plusC then (false, cs) else if c == minusC then (true, cs) else (false, t)
    | [] => (false, ([] : List Char))
  match st.2 with
  | c :: cs =>
    if isAsciiDigit c then
      let p := scanMoreDigits cs
      if p.2 = [] then
        let v : Int := Int.ofNat (digitsVal (c :: p.1))
        some (if st.1 then -v else v)
      else none
    else none
  | [] => none

/-- The value space of Python `float(...)`: finite values are modelled as the
exact rational denoted by the literal (no claim depends on IEEE rounding);
`inf`/`infinity` and `nan` spellings are carried symbolically. -/
inductive PyFloat where
  | finite : ℚ → PyFloat
  | infty : Bool → PyFloat
  | nan : PyFloat
deriving DecidableEq

/-- The exact rational value `±(ip.fp) × 10^exp` of a decimal literal with
integer digits `ip`, fraction digits `fp`, exponent `exp` and sign `neg`,
computed with core `mkRat` so that it evaluates in the kernel. -/
def floatVal (neg : Bool) (ip fp : List Char) (exp : Int) : ℚ :=
  let m : Int := Int.ofNat (digitsVal ip * 10 ^ fp.length + digitsVal fp)
  let e : Int := exp - Int.ofNat fp.length
  let v : ℚ := if 0 ≤ e then mkRat (m * Int.ofNat (10 ^ e.toNat)) 1 else mkRat m (10 ^ (-e).toNat)
  if neg then -v else v

/-- Rational value of an integer digit part `ip` and fraction digit part `fp`. -/
def mantissaVal (ip fp : List Char) : ℚ := floatVal false ip fp 0

/-- Finish parsing a `float` literal after the mantissa: an optional exponent,
then the end of the string. -/
def pyFloatTail (neg : Bool) (ip fp : List Char) (rest : List Char) : Option PyFloat :=
  match rest with
  | [] => some (PyFloat.finite (floatVal neg ip fp 0))
  | c :: cs =>
    if c == Char.ofNat 101 || c == Char.ofNat 69 then
      let st :=
        match cs with
        | d :: ds => if d == plusC then (false, ds) else if d == minusC then (true, ds) else (false, cs)
        | [] => (false, ([] : List Char))
      match st.2 with
      | d :: ds =>
        if isAsciiDigit d then
          let p := scanMoreDigits ds
          if p.2 = [] then
            let ev : Int := Int.ofNat (digitsVal (d :: p.1))
            some (PyFloat.finite (floatVal neg ip fp (if st.1 then -ev else ev)))
          else none
        else none
      | [] => none
    else none

/-- Parse the numeric (non-`inf`/`nan`) body of a `float` literal:
`D`, `D.`, `D.D` or `.D` followed by an optional exponent. -/
def pyFloatNum (neg : Bool) (t1 : List Char) : Option PyFloat :=
  match t1 with
  | [] => none
  | c :: cs =>
    if isAsciiDigit c then
      let p := scanMoreDigits cs
      let ip := c :: p.1
      match p.2 with
      | d :: ds =>
        if d == dotC then
          match ds with
          | f :: fs =>
            if isAsciiDigit f then
              let q := scanMoreDigits fs
              pyFloatTail neg ip (f :: q.1) q.2
            else pyFloatTail neg ip [] ds
          | [] => pyFloatTail neg ip [] []
        else pyFloatTail neg ip [] (d :: ds)
      | [] => pyFloatTail neg ip [] []
    else if c == dotC then
      match cs with
      | f :: fs =>
        if isAsciiDigit f then
          let q := scanMoreDigits fs
          pyFloatTail neg [] (f :: q.1) q.2
        else none
      | [] => none
    else none

/-- Python `float(s)`: optional surrounding whitespace, optional sign, then a
numeric literal or one of the spellings `inf`, `infinity`, `nan`
(case-insensitive).  Returns `none` exactly when `float` raises `ValueError`. -/
def pyFloat? (l : List Char) : Option PyFloat :=
  let t := pyStrip l
  let st :=
    match t with
    | c :: cs => if c == plusC then (false, cs) else if c == minusC then (true, cs) else (false, t)
    | [] => (false, ([] : List Char))
  let low := st.2.map pyLowerChar
  if low = String.toList "inf" || low = String.toList "infinity" then some (PyFloat.infty st.1)
  else if low = String.toList "nan" then some PyFloat.nan
  else pyFloatNum st.1 st.2

/-! ### Normalizers (source lines 53-68, 384-428) -/

/-- `.encode("ascii", "ignore").decode("ascii")`: keep only ASCII characters. -/
def asciiFilter (l : List Char) : List Char := l.filter (fun c => c.toNat < 128)

/-- Membership in the regex class `[a-z0-9]` of `normalize_name`. -/
def isLowerAlnum (c : Char) : Bool :=
  (97 ≤ c.toNat && c.toNat ≤ 122) || (48 ≤ c.toNat && c.toNat ≤ 57)

/-- `re.sub(r"[^a-z0-9]+", " ", ·)`: replace every maximal run of characters
outside `[a-z0-9]` by a single space.  The flag records whether the previous
character was part of such a run (its space has already been emitted). -/
def collapseGo : Bool → List Char → List Char
  | _, [] => []
  | prevNon, c :: cs =>
    if isLowerAlnum c then c :: collapseGo false cs
    else if prevNon then collapseGo true cs
    else sp :: collapseGo true cs

def collapseNonAlnum (l : List Char) : List Char := collapseGo false l

/-- `normalize_name` (source lines 58-65).  `unicodedata.normalize("NFKD", ·)`
is an external library function taken as a parameter; the idempotence theorem
assumes only that it is the identity on ASCII-only strings, which is a
property of NFKD. -/
def normalize_name (nfkd : List Char → List Char) (value : List Char) : List Char :=
  pyStrip (collapseNonAlnum ((asciiFilter (nfkd value)).map pyLowerChar))

/-- `re.sub(r"\s+", " ", value.replace("\xa0", " ")).strip()` (source line 384). -/
def nbspToSp (c : Char) : Char := if c.toNat == 160 then sp else c

/-- Collapse whitespace runs to a single space (for `normalize_space`). -/
def wsCollapseGo : Bool → List Char → List Char
  | _, [] => []
  | prevWs, c :: cs =>
    if isPySpace c then (if prevWs then wsCollapseGo true cs else sp :: wsCollapseGo true cs)
    else c :: wsCollapseGo false cs

/-- `normalize_space` (source lines 384-385). -/
def normalize_space (value : String) : String :=
  String.mk (pyStrip (wsCollapseGo false (value.toList.map nbspToSp)))

/-! ### Numeric parsers (source lines 388-416) -/

/-- The character class `[a-zA-ZÂµ]` of `AMOUNT_PATTERN` (source line 53; the
two non-ASCII characters are U+00C2 and U+00B5, a mojibake of the micro sign). -/
def isUnitChar (c : Char) : Bool :=
  (65 ≤ c.toNat && c.toNat ≤ 90) || (97 ≤ c.toNat && c.toNat ≤ 122) ||
    c.toNat == 194 || c.toNat == 181

/-- `value.replace("%", "").replace("\xa0", " ").strip()` (source line 391). -/
def amountText (v : String) : List Char :=
  pyStrip ((v.toList.filter (fun c => c != pctC)).map nbspToSp)

/-- `AMOUNT_PATTERN.match(text)` plus group extraction:
`([0-9]+(?:\.[0-9]+)?)\s*([a-zA-ZÂµ]+)?` anchored at the start.  Returns the
numeric group's value and the optional unit group. -/
def amountMatch (t : List Char) : Option (ℚ × Option String) :=
  let d1 := t.takeWhile isAsciiDigit
  let r1 := t.dropWhile isAsciiDigit
  if d1 = [] then none
  else
    let fr :=
      match r1 with
      | c :: cs =>
        if c == dotC then
          let d2 := cs.takeWhile isAsciiDigit
          if d2 = [] then (([] : List Char), r1) else (d2, cs.dropWhile isAsciiDigit)
        else (([] : List Char), r1)
      | [] => (([] : List Char), ([] : List Char))
    let r3 := fr.2.dropWhile isPySpace
    let u := r3.takeWhile isUnitChar
    some (mantissaVal d1 fr.1, if u = [] then none else some (String.mk u))

/-- `parse_amount` (source lines 388-397).  `None` input and `""` are falsy. -/
def parse_amount (value : Option String) : Option ℚ × Option String :=
  match value with
  | none => (none, none)
  | some v =>
    if v = "" then (none, none)
    else
      match amountMatch (amountText v) with
      | none => (none, none)
      | some qu => (some qu.1, qu.2)

/-- `value.replace("%", "").strip()` (source line 403). -/
def percentText (v : String) : List Char := pyStrip (v.toList.filter (fun c => c != pctC))

/-- `parse_percent` (source lines 400-407): `float(cleaned)`, `ValueError ⇒ None`. -/
def parse_percent (value : Option String) : Option PyFloat :=
  match value with
  | none => none
  | some v => if v = "" then none else pyFloat? (percentText v)

/-- `parse_int` (source lines 410-416): keep only digits, then `int(·)`;
`int("")` raises `ValueError`, caught and turned into `None`. -/
def parse_int (value : Option String) : Option Int :=
  match value with
  | none => none
  | some v =>
    if v = "" then none
    else
      let digits := v.toList.filter isAsciiDigit
      if digits = [] then none else some (Int.ofNat (digitsVal digits))

/-! ### Ingredients parsing (source lines 316-342) -/

/-- The `ingredients` component of a nutrition label:
`{"raw": ..., "list": ...}` where `list` is `None` when every split token is
empty. -/
structure Ingredients where
  raw : String
  list : Option (List String)
deriving DecidableEq

/-- `re.sub(r"^Ingredients:\s*", "", ·, flags=re.I)`: strip one leading
case-insensitive `Ingredients:` label together with the whitespace after it. -/
def stripIngLabel (t : List Char) : List Char :=
  if (t.take 12).map pyLowerChar = String.toList "ingredients:" then
    (t.drop 12).dropWhile isPySpace
  else t

/-- `re.split(r",\s*", ·)`: each comma plus the following whitespace run is a
delimiter.  The flag records that the previous characters belonged to a
delimiter whose trailing whitespace is still being consumed. -/
def splitCommaGo : Bool → List Char → List (List Char)
  | _, [] => [[]]
  | skipWs, c :: cs =>
    if skipWs && isPySpace c then splitCommaGo true cs
    else if c == commaC then [] :: splitCommaGo true cs
    else
      match splitCommaGo false cs with
      | [] => [[c]]
      | h :: rest => (c :: h) :: rest

def splitCommaWs (t : List Char) : List (List Char) := splitCommaGo false t

/-- `[token.strip() for token in re.split(r",\s*", raw) if token.strip()]`
(source lines 324-326). -/
def ingTokens (raw : List Char) : List (List Char) :=
  ((splitCommaWs raw).map (fun t => pyStrip t)).filter (fun t => t ≠ [])

/-- The ingredients fragment of `parse_nutrition_label` (source lines 316-342),
as a function of the ingredients block's extracted text
(`ingredients_block.get_text(" ", strip=True)`). -/
def parse_ingredients_block (blockText : String) : Option Ingredients :=
  let raw := pyStrip (stripIngLabel blockText.toList)
  if raw = [] then none
  else
    some { raw := String.mk raw,
           list :=
             if ingTokens raw = [] then none
             else some ((ingTokens raw).map (fun t => String.mk t)) }

/-! ### NutritionFetcher + cache (source lines 288-305) -/

/-- The external collaborators of `fetch_nutrition`: `net` is one call of the
retrying transport (`request_with_retry` posting to the label endpoint) and
`parseLabel` is `parse_nutrition_label` on the response body.  Both return
`Except String _` to embed Python exception propagation. -/
structure FetchEnv (P : Type u) (L : Type v) where
  net : Int → Except String P
  parseLabel : P → Except String L

/-- The run-scoped state touched by `fetch_nutrition`: the `nutrition_cache`
dict and the log of transport requests issued (for counting network calls). -/
structure FetchState (L : Type v) where
  cache : List (Int × L)
  requests : List Int
deriving DecidableEq

/-- `detail_id in nutrition_cache` / `nutrition_cache[detail_id]`. -/
def cacheLookup {L : Type v} (cache : List (Int × L)) (d : Int) : Option L :=
  (cache.find? (fun p => p.1 == d)).map (fun p => p.2)

/-- `fetch_nutrition` (source lines 288-305).  On a cache hit the cached label
is returned with no transport activity; on a miss one transport request is
issued, the response parsed, and the result stored before returning.
`time.sleep` has no observable state and is omitted. -/
def fetch_nutrition {P : Type u} {L : Type v} (env : FetchEnv P L) (detail_id : Int)
    (st : FetchState L) : Except String L × FetchState L :=
  match cacheLookup st.cache detail_id with
  | some lab => (Except.ok lab, st)
  | none =>
    let st1 : FetchState L := { st with requests := st.requests ++ [detail_id] }
    match env.net detail_id with
    | Except.error e => (Except.error e, st1)
    | Except.ok page =>
      match env.parseLabel page with
      | Except.error e => (Except.error e, st1)
      | Except.ok lab => (Except.ok lab, { st1 with cache := (detail_id, lab) :: st.cache })

/-! ### The markup tree (BeautifulSoup model) -/

/-- A parsed markup node: a text node (`NavigableString`) or an element
(`Tag`) with a tag name, an attribute map and children in document order.
A parsed document or fragment is a `List Node` of top-level nodes. -/
inductive Node where
  | text : String → Node
  | elem : String → List (String × String) → List Node → Node

def Node.tag : Node → String
  | Node.text _ => ""
  | Node.elem t _ _ => t

/-- `tag.get(key)`: `None` when the attribute is absent. -/
def Node.attr? : Node → String → Option String
  | Node.text _, _ => none
  | Node.elem _ attrs _, key => (attrs.find? (fun p => p.1 == key)).map (fun p => p.2)

/-- `tag.has_attr(key)` (also the `attrs={key: True}` search filter). -/
def Node.hasAttr (n : Node) (key : String) : Bool := (n.attr? key).isSome

def Node.children : Node → List Node
  | Node.text _ => []
  | Node.elem _ _ ch => ch

mutual

/-- One node followed by its descendants, in document (pre-order) order. -/
def nodeWithDescendants : Node → List Node
  | Node.text s => [Node.text s]
  | Node.elem t a ch => Node.elem t a ch :: allNodes ch

/-- All nodes of a forest in document (pre-order) order, each node before its
descendants.  This is the traversal order of `find_all` and `select`. -/
def allNodes : List Node → List Node
  | [] => []
  | n :: ns => nodeWithDescendants n ++ allNodes ns

end

/-- The descendants of one node (excluding the node itself), pre-order:
the search space of `tag.find` / `tag.find_all`. -/
def Node.descendants (n : Node) : List Node := allNodes n.children

mutual

/-- The text-node strings inside one node, in document order. -/
def nodeTexts : Node → List String
  | Node.text s => [s]
  | Node.elem _ _ ch => textList ch

/-- The descendant text-node strings of a forest, in document order
(`tag.strings`). -/
def textList : List Node → List String
  | [] => []
  | n :: ns => nodeTexts n ++ textList ns

end

/-- Join a list of strings with a separator (`sep.join(...)`). -/
def joinSep (sep : String) : List String → String
  | [] => ""
  | [s] => s
  | s :: rest => s ++ sep ++ joinSep sep rest

/-- `tag.get_text(sep, strip=True)`: strip each descendant string, drop the
empty ones, join with `sep`. -/
def Node.getText (n : Node) (sep : String) : String :=
  joinSep sep (((nodeTexts n).map stripS).filter (fun s => s ≠ ""))

/-- Python `str.split()` (whitespace split, no empty tokens), used for the
multi-valued `class` attribute. -/
def splitWsGo (cur : List Char) : List Char → List String
  | [] => if cur = [] then [] else [String.mk cur.reverse]
  | c :: cs =>
    if isPySpace c then
      (if cur = [] then splitWsGo [] cs else String.mk cur.reverse :: splitWsGo [] cs)
    else splitWsGo (c :: cur) cs

def splitWsS (s : String) : List String := splitWsGo [] s.toList

def isPrefixCL : List Char → List Char → Bool
  | [], _ => true
  | _ :: _, [] => false
  | a :: as, b :: bs => a == b && isPrefixCL as bs

/-- Substring test (`pat in hay` on Python strings). -/
def isInfixCL (pat : List Char) : List Char → Bool
  | [] => isPrefixCL pat []
  | c :: cs => isPrefixCL pat (c :: cs) || isInfixCL pat cs

def containsStr (hay pat : String) : Bool := isInfixCL pat.toList hay.toList

/-!
`scopedTags stopTag keep forest` collects the descendants of a forest carrying
tag `keep` whose nearest enclosing `stopTag` ancestor is NOT inside the
forest, in document order.  With `stopTag = "tr"`, `keep = "td"` applied to a
row's children this is `row.find_all("td")` filtered by
`cell.find_parent("tr") is row` (source lines 185-187); with `"table"`/`"tr"`
it is the per-table row filter (source lines 137-139).
-/

mutual

def scopedTagsNode (stopTag keep : String) : Node → List Node
  | Node.text _ => []
  | Node.elem t a ch =>
    if t = stopTag then []
    else (if t = keep then [Node.elem t a ch] else []) ++ scopedTags stopTag keep ch

def scopedTags (stopTag keep : String) : List Node → List Node
  | [] => []
  | n :: ns => scopedTagsNode stopTag keep n ++ scopedTags stopTag keep ns

end

/-- The cells of an item row (source lines 185-187). -/
def Node.cells (row : Node) : List Node := scopedTags "tr" "td" row.children

/-- The rows belonging directly to a table (source lines 137-139). -/
def tableRows (t : Node) : List Node := scopedTags "table" "tr" t.children

/-! ### UnitDiscovery (source lines 86-105) -/

structure UnitEntry where
  id : Int
  name : String
deriving DecidableEq

/-- The loop state of `extract_units`: the output list and the `seen_ids` set
(insertion-ordered, membership is all that matters). -/
structure UnitsAcc where
  units : List UnitEntry
  seen : List Int
deriving DecidableEq

/-- One iteration of the `extract_units` loop body (source lines 90-104). -/
def extract_units_step (acc : UnitsAcc) (anchor : Node) : UnitsAcc :=
  match anchor.attr? "data-unitoid" with
  | none => acc
  | some raw =>
    if raw = "" || raw = "-1" then acc
    else
      match pyInt? raw.toList with
      | none => acc
      | some unit_id =>
        if acc.seen.contains unit_id then acc
        else
          let name := anchor.getText ""
          if name = "" || lowerS name = "show all units" then acc
          else { units := acc.units ++ [⟨unit_id, name⟩], seen := acc.seen ++ [unit_id] }

/-- `extract_units` (source lines 86-105): iterate over all elements carrying
`data-unitoid` (`soup.select("[data-unitoid]")`) in document order. -/
def extract_units (roots : List Node) : List UnitEntry :=
  (((allNodes roots).filter (fun n => n.hasAttr "data-unitoid")).foldl
    extract_units_step ⟨[], []⟩).units

/-! ### Item extraction (source lines 180-285) -/

/-- `DETAIL_ID_PATTERN.search(s)` plus `int(match.group(1))`: the value of the
first maximal digit run of `s`, if any (source line 55). -/
def firstDigitRun : List Char → Option Nat
  | [] => none
  | c :: cs =>
    if isAsciiDigit c then some (digitsVal (c :: cs.takeWhile isAsciiDigit))
    else firstDigitRun cs

/-- The anchor fallback of `extract_detail_id` (source lines 220-224):
`name_cell.find("a", id=DETAIL_ID_PATTERN)` matches the first descendant
anchor whose `id` attribute contains a digit. -/
def detailFromAnchor (name_cell : Node) : Option Int :=
  match name_cell.descendants.find? (fun n =>
      n.tag == "a" &&
        (match n.attr? "id" with
         | some s => (firstDigitRun s.toList).isSome
         | none => false)) with
  | some a =>
    match a.attr? "id" with
    | some s => (firstDigitRun s.toList).map (fun n => Int.ofNat n)
    | none => none
  | none => none

/-- `extract_detail_id` (source lines 213-225).  The first branch takes the
first descendant of the action cell carrying `data-detailoid`; an empty or
unparsable value falls through to the anchor branch. -/
def extract_detail_id (action_cell name_cell : Node) : Option Int :=
  match action_cell.descendants.find? (fun n => n.hasAttr "data-detailoid") with
  | some button =>
    match button.attr? "data-detailoid" with
    | some v =>
      if v = "" then detailFromAnchor name_cell
      else
        match pyInt? v.toList with
        | some i => some i
        | none => detailFromAnchor name_cell
    | none => detailFromAnchor name_cell
  | none => detailFromAnchor name_cell

/-- Does the multi-valued `class` attribute contain the token `cls`? -/
def hasClass (n : Node) (cls : String) : Bool :=
  match n.attr? "class" with
  | some v => (splitWsS v).contains cls
  | none => false

/-- The parts loop of `extract_item_name` (source lines 232-243): direct
children of the name anchor, keeping stripped non-empty strings, skipping
`span` elements, and taking `get_text(" ", strip=True)` of other elements. -/
def anchorParts : List Node → List String
  | [] => []
  | Node.text s :: ns =>
    let t := stripS s
    if t = "" then anchorParts ns else t :: anchorParts ns
  | Node.elem tg a ch :: ns =>
    if tg = "span" then anchorParts ns
    else
      let t := (Node.elem tg a ch).getText " "
      if t = "" then anchorParts ns else t :: anchorParts ns

/-- `extract_item_name` (source lines 228-246).  Never returns `some ""`:
empty resolutions become `none` (Python's `or None`). -/
def extract_item_name (cell : Node) : Option String :=
  match cell.descendants.find? (fun n => n.tag == "a" && hasClass n "cbo_nn_itemHover") with
  | none =>
    let t := cell.getText " "
    if t = "" then none else some t
  | some anchor =>
    let parts := anchorParts anchor.children
    if parts ≠ [] then some (String.mk (pyStrip (joinSep " " parts).toList))
    else
      let t := anchor.getText " "
      if t = "" then none else some t

/-- `re.compile("description", re.I)` applied to a class token: the token
contains `description` case-insensitively. -/
def classTokenHasDescription (tok : String) : Bool :=
  isInfixCL (String.toList "description") (tok.toList.map pyLowerChar)

def hasDescriptionClass (n : Node) : Bool :=
  match n.attr? "class" with
  | some v => (splitWsS v).any classTokenHasDescription
  | none => false

/-- `extract_description` (source lines 249-254). -/
def extract_description (cell : Node) : Option String :=
  let d := cell.descendants.find? (fun n => n.tag == "div" && hasDescriptionClass n)
  let d2 := match d with
    | some x => some x
    | none => cell.descendants.find? (fun n => n.tag == "small")
  match d2 with
  | some nd =>
    let t := nd.getText " "
    if t = "" then none else some t
  | none => none

/-- `(img.get("title") or img.get("alt") or "")`: Python `or` is
falsy-chaining, so an empty `title` falls through to `alt`. -/
def imgLabel (img : Node) : String :=
  let t := match img.attr? "title" with
    | some v => if v ≠ "" then v else (img.attr? "alt").getD ""
    | none => (img.attr? "alt").getD ""
  stripS t

/-- `extract_allergens` (source lines 257-263): de-duplicated, in order. -/
def extract_allergens (cell : Node) : List String :=
  (cell.descendants.filter (fun n => n.tag == "img")).foldl
    (fun labels img =>
      let label := imgLabel img
      if label ≠ "" && !(labels.contains label) then labels ++ [label] else labels)
    []

/-- One serving option `{label, raw_value, servings}` (source lines 273-284). -/
structure ServingOption where
  label : String
  raw_value : Option String
  servings : Option PyFloat
deriving DecidableEq

inductive ServingChoice where
  | static : String → ServingChoice
  | select : List ServingOption → ServingChoice
deriving DecidableEq

/-- `float(raw_value) / 100` on the `PyFloat` model. -/
def pyFloatDiv100 : PyFloat → PyFloat
  | PyFloat.finite q => PyFloat.finite (mkRat q.num (q.den * 100))
  | PyFloat.infty b => PyFloat.infty b
  | PyFloat.nan => PyFloat.nan

/-- `parse_serving_choices` (source lines 266-285).  `float(raw_value)/100`
with `raw_value` falsy, unparsable (`ValueError`) or `None` (`TypeError`)
yields `servings = None`. -/
def parse_serving_choices (cell : Option Node) : Option ServingChoice :=
  match cell with
  | none => none
  | some c =>
    match c.descendants.find? (fun n => n.tag == "select") with
    | none =>
      let t := c.getText " "
      if t = "" then none else some (ServingChoice.static t)
    | some sel =>
      let options := (sel.descendants.filter (fun n => n.tag == "option")).map (fun o =>
        let raw := o.attr? "value"
        let servings :=
          match raw with
          | some rv => if rv = "" then none else (pyFloat? rv.toList).map pyFloatDiv100
          | none => none
        ServingOption.mk (o.getText " ") raw servings)
      if options = [] then none else some (ServingChoice.select options)

/-- An emitted menu item.  The source stores a dict and prunes entries whose
value is `None`, `[]` or `""` (source line 207); here `none` / `[]` plays the
role of the pruned entry, and `detail_id = some 0` is kept just as Python
keeps `0` (`0 not in (None, [], "")`).  `L` is the nutrition-label type
produced by the label parser. -/
structure Item (L : Type v) where
  detail_id : Option Int
  name : String
  description : Option String
  allergens : List String
  serving_display : Option String
  serving_choices : Option ServingChoice
  nutrition : Option L
deriving DecidableEq

/-- `build_item` (source lines 180-210).  Note the Python truthiness test
`if detail_id:` on line 208: a resolved detail id of `0` skips the nutrition
fetch exactly like `None`. -/
def build_item {P : Type u} {L : Type v} (env : FetchEnv P L) (row : Node)
    (st : FetchState L) : Except String (Option (Item L)) × FetchState L :=
  match Node.cells row with
  | action_cell :: name_cell :: rest =>
    let serving_cell := rest.head?
    let servings_cell := rest[1]?
    let detail_id := extract_detail_id action_cell name_cell
    match extract_item_name name_cell with
    | none => (Except.ok none, st)
    | some item_name =>
      let base : Item L :=
        { detail_id := detail_id,
          name := item_name,
          description := extract_description name_cell,
          allergens := extract_allergens name_cell,
          serving_display :=
            match serving_cell with
            | some sc => let t := sc.getText " "; if t = "" then none else some t
            | none => none,
          serving_choices := parse_serving_choices servings_cell,
          nutrition := none }
      match detail_id with
      | some d =>
        if d = 0 then (Except.ok (some base), st)
        else
          match fetch_nutrition env d st with
          | (Except.ok lab, st2) => (Except.ok (some { base with nutrition := some lab }), st2)
          | (Except.error e, st2) => (Except.error e, st2)
      | none => (Except.ok (some base), st)
  | _ => (Except.ok none, st)

/-! ### Categories and the panel parser (source lines 123-177) -/

structure Category (L : Type v) where
  category_id : Option Nat
  title : String
  selection_guidance : Option String
  raw_title : String
  items : List (Item L)
deriving DecidableEq

/-- Try to complete a `CATEGORY_ID_PATTERN` match right after the literal
`toggleCourseItems(`: a non-empty comma-free run, the comma, optional
whitespace, a digit run, then `)` (source line 54).  The regex is
deterministic here because `[^,]+` cannot cross the first comma. -/
def afterToggle (l : List Char) : Option Nat :=
  let pre := l.takeWhile (fun c => c != commaC)
  if pre = [] then none
  else
    match l.dropWhile (fun c => c != commaC) with
    | c :: r2 =>
      if c == commaC then
        let r3 := r2.dropWhile isPySpace
        let ds := r3.takeWhile isAsciiDigit
        if ds = [] then none
        else
          match r3.dropWhile isAsciiDigit with
          | d :: _ => if d == rparC then some (digitsVal ds) else none
          | [] => none
      else none
    | [] => none

/-- `CATEGORY_ID_PATTERN.search(onclick)` plus `int(match.group(1))`:
leftmost occurrence of the literal that completes to a full match. -/
def categoryIdFromOnclick : List Char → Option Nat
  | [] => none
  | c :: cs =>
    if isPrefixCL (String.toList "toggleCourseItems(") (c :: cs) then
      match afterToggle (List.drop 18 (c :: cs)) with
      | some n => some n
      | none => categoryIdFromOnclick cs
    else categoryIdFromOnclick cs

/-- `build_category` (source lines 158-177). -/
def build_category {L : Type v} (row : Node) : Category L :=
  let text := row.getText " "
  let category_id := categoryIdFromOnclick ((row.attr? "onclick").getD "").toList
  let tl := text.toList
  if tl.contains lparC && tl.getLast? = some rparC then
    let k :=
      match tl.reverse.findIdx? (fun c => c == lparC) with
      | some j => tl.length - 1 - j
      | none => 0
    { category_id := category_id,
      title := String.mk (pyStrip (tl.take k)),
      selection_guidance := some (String.mk (pyStrip ((tl.drop (k + 1)).dropLast))),
      raw_title := text,
      items := [] }
  else
    { category_id := category_id, title := text, selection_guidance := none,
      raw_title := text, items := [] }

/-- The loop state of `parse_unit_panel` (source lines 129-130): the
category list in construction order and the `category_lookup` dict, here an
association list from `str(category_id)` to the category's position in
`categories` (Python aliases the dict values to the list entries; positions
model that aliasing since the list is append-only). -/
structure PanelState (L : Type v) where
  categories : List (Category L)
  lookup : List (String × Nat)
  fs : FetchState L

/-- `row.get("class") or []` split into tokens (source line 140). -/
def rowClasses (row : Node) : List String := splitWsS ((row.attr? "class").getD "")

/-- Append an item to the items of the category at position `i`
(`cat["items"].append(item)`, source line 154). -/
def setItemsAt {L : Type v} : List (Category L) → Nat → Item L → List (Category L)
  | [], _, _ => []
  | c :: cs, 0, it => { c with items := c.items ++ [it] } :: cs
  | c :: cs, Nat.succ j, it => c :: setItemsAt cs j it

/-- `category_lookup.get(s)` (first-match association lookup; insertion
prepends, matching Python dict overwrite semantics). -/
def lookupIdx (lk : List (String × Nat)) (s : String) : Option Nat :=
  (lk.find? (fun p => p.1 == s)).map (fun p => p.2)

/-- `category_lookup.get(row["data-categoryid"]) or (categories[-1] if
categories else None)` (source lines 147-149), as a position. -/
def attachTarget {L : Type v} (st : PanelState L) (s : String) : Option Nat :=
  match lookupIdx st.lookup s with
  | some i => some i
  | none => if st.categories.isEmpty then none else some (st.categories.length - 1)

/-- One iteration of the row loop of `parse_unit_panel`
(source lines 137-154). -/
def panelRowStep {P : Type u} {L : Type v} (env : FetchEnv P L) (st : PanelState L)
    (row : Node) : Except String (PanelState L) :=
  if (rowClasses row).contains "cbo_nn_itemGroupRow" then
    let cat : Category L := build_category row
    Except.ok
      { st with
        categories := st.categories ++ [cat],
        lookup :=
          match cat.category_id with
          | some n => (toString n, st.categories.length) :: st.lookup
          | none => st.lookup }
  else
    match row.attr? "data-categoryid" with
    | some s =>
      match attachTarget st s with
      | none => Except.ok st
      | some i =>
        match build_item env row st.fs with
        | (Except.error e, _) => Except.error e
        | (Except.ok none, fs2) => Except.ok { st with fs := fs2 }
        | (Except.ok (some it), fs2) =>
          Except.ok { st with categories := setItemsAt st.categories i it, fs := fs2 }
    | none => Except.ok st

/-- The row loop of `parse_unit_panel` over a row list (an uncaught exception
from `build_item` aborts the whole panel parse). -/
def processRows {P : Type u} {L : Type v} (env : FetchEnv P L) : List Node →
    PanelState L → Except String (PanelState L)
  | [], st => Except.ok st
  | r :: rs, st =>
    match panelRowStep env st r with
    | Except.error e => Except.error e
    | Except.ok st2 => processRows env rs st2

/-- The tables whose rendered text contains `"Item Name"`
(source lines 131-135). -/
def panelTables (roots : List Node) : List Node :=
  ((allNodes roots).filter (fun n => n.tag == "table")).filter
    (fun t => containsStr (t.getText " ") "Item Name")

/-- `parse_unit_panel` (source lines 123-155): fold the row loop over the
rows of every matching table, then keep only categories with items.  The
fetch-state mutations that Python would keep on an uncaught exception are
not observable here because `main` discards the venue's categories in that
case. -/
def parse_unit_panel {P : Type u} {L : Type v} (env : FetchEnv P L) (roots : List Node)
    (fs0 : FetchState L) : Except String (List (Category L) × FetchState L) :=
  let rows := (panelTables roots).foldl (fun acc t => acc ++ tableRows t) []
  match processRows env rows ⟨[], [], fs0⟩ with
  | Except.error e => Except.error e
  | Except.ok st => Except.ok (st.categories.filter (fun c => !c.items.isEmpty), st.fs)

/-! ### The venue loop of `main` (source lines 431-479) -/

structure VenueUnit where
  id : Int
  name : String
deriving DecidableEq

/-- One entry of `dataset_units`: the success shape carries
`category_count`/`item_count`/`categories`, the failure shape carries
`error` and an empty `categories` (source lines 459-478).  Absent dict keys
are `none`. -/
structure UnitRecord (L : Type v) where
  unit_id : Int
  name : String
  error : Option String
  category_count : Option Nat
  item_count : Option Nat
  categories : List (Category L)
deriving DecidableEq

/-- The record appended when a venue's processing raises (source lines
459-466): `error` is `str(exc)`, the exception's message. -/
def failRecord {L : Type v} (u : VenueUnit) (e : String) : UnitRecord L :=
  ⟨u.id, u.name, some e, none, none, []⟩

/-- The record appended when a venue processes normally (source lines
468-478). -/
def okRecord {L : Type v} (u : VenueUnit) (cats : List (Category L)) : UnitRecord L :=
  ⟨u.id, u.name, none, some cats.length,
    some (cats.foldl (fun a c => a + c.items.length) 0), cats⟩

/-- The venue loop of `main` (source lines 452-479).  `process` is the body
`fetch_unit_panel` + `parse_unit_panel`; the threaded state `σ` carries the
shared session and `nutrition_cache`, and an `Except.error` value is a raised
exception caught at the venue boundary. -/
def mainLoop {L : Type v} {σ : Type w}
    (process : VenueUnit → σ → Except String (List (Category L)) × σ) :
    List VenueUnit → σ → List (UnitRecord L)
  | [], _ => []
  | u :: us, s =>
    match process u s with
    | (Except.error e, s2) => failRecord u e :: mainLoop process us s2
    | (Except.ok cats, s2) => okRecord u cats :: mainLoop process us s2

/-! ### Verification-side definitions -/

/-- Characters that can appear in `normalize_name` output: `[a-z0-9]` or a
single space. -/
def goodChar (c : Char) : Bool := isLowerAlnum c || c == sp

/-- No two adjacent spaces. -/
def noDbl : List Char → Bool
  | [] => true
  | [_] => true
  | a :: b :: rest => !(a == sp && b == sp) && noDbl (b :: rest)

/-- The key under which a category is registered in `category_lookup`:
`str(category["category_id"])` when the id is present (source line 145). -/
def catKey {L : Type v} (c : Category L) : Option String :=
  c.category_id.map (fun n => toString n)

/-- Invariant of the panel-parser state: the lookup maps a key exactly to
positions of categories carrying that key. -/
def panelInv {L : Type v} (st : PanelState L) : Prop :=
  (∀ (s : String) (i : Nat), lookupIdx st.lookup s = some i →
    ∃ c, st.categories[i]? = some c ∧ catKey c = some s) ∧
  (∀ (i : Nat) (c : Category L) (s : String), st.categories[i]? = some c →
    catKey c = some s → lookupIdx st.lookup s ≠ none)

/-- How an item row with owning-category attribute `s` attaches in state
`st` (claim C5): to a category with matching key when one exists, else to the
most recently appended category, else the row is dropped with the state
untouched. -/
def attachSpec {P : Type u} {L : Type v} (env : FetchEnv P L) (st : PanelState L)
    (row : Node) (s : String) : Prop :=
  ((∃ c ∈ st.categories, catKey c = some s) →
    ∃ i c, attachTarget st s = some i ∧ st.categories[i]? = some c ∧ catKey c = some s ∧
      ∀ it fs2, build_item env row st.fs = (Except.ok (some it), fs2) →
        panelRowStep env st row =
          Except.ok ⟨setItemsAt st.categories i it, st.lookup, fs2⟩) ∧
  (((∀ c ∈ st.categories, catKey c ≠ some s) ∧ st.categories ≠ []) →
    attachTarget st s = some (st.categories.length - 1) ∧
      ∀ it fs2, build_item env row st.fs = (Except.ok (some it), fs2) →
        panelRowStep env st row =
          Except.ok ⟨setItemsAt st.categories (st.categories.length - 1) it, st.lookup, fs2⟩) ∧
  (st.categories = [] → panelRowStep env st row = Except.ok st)

/-- A venue-processing oracle that raises an exception whose message is the
empty string (`str(exc) == ""`, e.g. `requests.RequestException()`). -/
def emptyErrorProcess : VenueUnit → Nat → Except String (List (Category Nat)) × Nat :=
  fun _ s => (Except.error "", s)

/-- An action cell whose actionable control carries `data-detailoid="0"`. -/
def zeroDetailActionCell : Node :=
  Node.elem "td" [] [Node.elem "button" [("data-detailoid", "0")] []]

def zeroDetailNameCell : Node := Node.elem "td" [] [Node.text "Apple"]

def zeroDetailRow : Node :=
  Node.elem "tr" [("data-categoryid", "1")] [zeroDetailActionCell, zeroDetailNameCell]

/-- A transport/parser oracle that would answer any fetch successfully. -/
def zeroDetailEnv : FetchEnv Nat Nat := ⟨fun _ => Except.ok 7, fun p => Except.ok p⟩

def emptyFetchState : FetchState Nat := ⟨[], []⟩

/-! ## Theorems -/

/-! ### Facts about `normalize_name` building blocks (claim C3) -/

theorem sp_toNat : sp.toNat = 32 := by decide

theorem isLowerAlnum_ranges {c : Char} (h : isLowerAlnum c = true) :
    (97 ≤ c.toNat ∧ c.toNat ≤ 122) ∨ (48 ≤ c.toNat ∧ c.toNat ≤ 57) := by
  simp only [isLowerAlnum, Bool.or_eq_true, Bool.and_eq_true, decide_eq_true_eq] at h
  exact h

theorem isLowerAlnum_ne_sp {c : Char} (h : isLowerAlnum c = true) : c ≠ sp := by
  intro hc
  rcases isLowerAlnum_ranges h with h1 | h1 <;> rw [hc, sp_toNat] at h1 <;> omega

theorem goodChar_cases {c : Char} (h : goodChar c = true) :
    isLowerAlnum c = true ∨ c = sp := by
  simp only [goodChar, Bool.or_eq_true, beq_iff_eq] at h
  exact h

theorem goodChar_lt128 {c : Char} (h : goodChar c = true) : c.toNat < 128 := by
  rcases goodChar_cases h with h1 | h1
  · rcases isLowerAlnum_ranges h1 with h2 | h2 <;> omega
  · rw [h1, sp_toNat]; omega

theorem goodChar_lower_id {c : Char} (h : goodChar c = true) : pyLowerChar c = c := by
  have hn : ¬(65 ≤ c.toNat ∧ c.toNat ≤ 90) := by
    rcases goodChar_cases h with h1 | h1
    · rcases isLowerAlnum_ranges h1 with h2 | h2 <;> omega
    · rw [h1, sp_toNat]; omega
  unfold pyLowerChar
  rw [if_neg (by simp only [Bool.and_eq_true, decide_eq_true_eq]; exact hn)]

theorem mem_collapseGo : ∀ (l : List Char) (b : Bool) (c : Char),
    c ∈ collapseGo b l → goodChar c = true := by
  intro l
  induction l with
  | nil => intro b c hc; simp [collapseGo] at hc
  | cons d cs ih =>
    intro b c hc
    by_cases hd : isLowerAlnum d = true
    · rw [collapseGo, if_pos hd] at hc
      rcases List.mem_cons.mp hc with h1 | h1
      · subst h1; simp [goodChar, hd]
      · exact ih false c h1
    · rw [collapseGo, if_neg hd] at hc
      cases b with
      | true => exact ih true c hc
      | false =>
        rw [if_neg Bool.false_ne_true] at hc
        rcases List.mem_cons.mp hc with h1 | h1
        · subst h1; decide
        · exact ih true c h1

theorem head_collapseGo_true : ∀ (l : List Char) (c : Char),
    (collapseGo true l).head? = some c → isLowerAlnum c = true := by
  intro l
  induction l with
  | nil => intro c hc; simp [collapseGo] at hc
  | cons d cs ih =>
    intro c hc
    by_cases hd : isLowerAlnum d = true
    · rw [collapseGo, if_pos hd] at hc
      simp only [List.head?_cons, Option.some.injEq] at hc
      rw [← hc]; exact hd
    · rw [collapseGo, if_neg hd, if_pos rfl] at hc
      exact ih c hc

theorem noDbl_cons_of {c : Char} {l : List Char} (h1 : noDbl l = true)
    (h2 : ∀ d, l.head? = some d → (c == sp && d == sp) = false) :
    noDbl (c :: l) = true := by
  cases l with
  | nil => rfl
  | cons d rest =>
    have hd := h2 d rfl
    simp only [noDbl, Bool.and_eq_true, Bool.not_eq_true']
    exact ⟨hd, h1⟩

theorem noDbl_tail {a : Char} {l : List Char} (h : noDbl (a :: l) = true) :
    noDbl l = true := by
  cases l with
  | nil => rfl
  | cons b rest =>
    simp only [noDbl, Bool.and_eq_true] at h
    exact h.2

theorem noDbl_head2 {c d : Char} {l : List Char} (h : noDbl (c :: l) = true)
    (hd : l.head? = some d) : (c == sp && d == sp) = false := by
  cases l with
  | nil => simp at hd
  | cons e rest =>
    simp only [List.head?_cons, Option.some.injEq] at hd
    subst hd
    simp only [noDbl, Bool.and_eq_true, Bool.not_eq_true'] at h
    exact h.1

theorem noDbl_collapseGo : ∀ (l : List Char) (b : Bool), noDbl (collapseGo b l) = true := by
  intro l
  induction l with
  | nil => intro b; rfl
  | cons c cs ih =>
    intro b
    by_cases hc : isLowerAlnum c = true
    · rw [collapseGo, if_pos hc]
      refine noDbl_cons_of (ih false) ?_
      intro d _
      have : (c == sp) = false := beq_eq_false_iff_ne.mpr (isLowerAlnum_ne_sp hc)
      rw [this, Bool.false_and]
    · rw [collapseGo, if_neg hc]
      cases b with
      | true => exact ih true
      | false =>
        rw [if_neg Bool.false_ne_true]
        refine noDbl_cons_of (ih true) ?_
        intro d hd
        have hda : isLowerAlnum d = true := head_collapseGo_true cs d hd
        have : (d == sp) = false := beq_eq_false_iff_ne.mpr (isLowerAlnum_ne_sp hda)
        rw [this, Bool.and_false]

theorem mem_dropWhile {p : Char → Bool} : ∀ {l : List Char} {c : Char},
    c ∈ l.dropWhile p → c ∈ l := by
  intro l
  induction l with
  | nil => intro c hc; simp [List.dropWhile] at hc
  | cons a as ih =>
    intro c hc
    rw [List.dropWhile_cons] at hc
    by_cases ha : p a = true
    · rw [if_pos ha] at hc
      exact List.mem_cons_of_mem a (ih hc)
    · rw [if_neg ha] at hc
      exact hc

theorem noDbl_dropWhile (p : Char → Bool) : ∀ (l : List Char), noDbl l = true →
    noDbl (l.dropWhile p) = true := by
  intro l
  induction l with
  | nil => intro h; exact h
  | cons a as ih =>
    intro h
    rw [List.dropWhile_cons]
    by_cases ha : p a = true
    · rw [if_pos ha]
      exact ih (noDbl_tail h)
    · rw [if_neg ha]
      exact h

theorem mem_pyRStrip : ∀ {l : List Char} {c : Char}, c ∈ pyRStrip l → c ∈ l := by
  intro l
  induction l with
  | nil => intro c hc; simp [pyRStrip] at hc
  | cons a as ih =>
    intro c hc
    rw [pyRStrip] at hc
    by_cases hcond : ((pyRStrip as).isEmpty && isPySpace a) = true
    · simp only [hcond, if_pos] at hc
      simp at hc
    · simp only [hcond, Bool.false_eq_true, if_neg, if_false] at hc
      rcases List.mem_cons.mp hc with h1 | h1
      · subst h1; exact List.mem_cons_self _ _
      · exact List.mem_cons_of_mem a (ih h1)

theorem head_pyRStrip : ∀ {l : List Char} {c : Char},
    (pyRStrip l).head? = some c → l.head? = some c := by
  intro l c hc
  cases l with
  | nil => simp [pyRStrip] at hc
  | cons a as =>
    rw [pyRStrip] at hc
    by_cases hcond : ((pyRStrip as).isEmpty && isPySpace a) = true
    · simp only [hcond, if_pos] at hc
      simp at hc
    · simp only [hcond, Bool.false_eq_true, if_neg, if_false] at hc
      simp only [List.head?_cons, Option.some.injEq] at hc
      rw [List.head?_cons, hc]

theorem noDbl_pyRStrip : ∀ (l : List Char), noDbl l = true → noDbl (pyRStrip l) = true := by
  intro l
  induction l with
  | nil => intro h; exact h
  | cons a as ih =>
    intro h
    rw [pyRStrip]
    by_cases hcond : ((pyRStrip as).isEmpty && isPySpace a) = true
    · simp only [hcond, if_pos]; rfl
    · simp only [hcond, Bool.false_eq_true, if_neg, if_false]
      refine noDbl_cons_of (ih (noDbl_tail h)) ?_
      intro d hd
      exact noDbl_head2 h (head_pyRStrip hd)

theorem last_pyRStrip : ∀ {l : List Char} {c : Char},
    (pyRStrip l).getLast? = some c → isPySpace c = false := by
  intro l
  induction l with
  | nil => intro c hc; simp [pyRStrip] at hc
  | cons a as ih =>
    intro c hc
    rw [pyRStrip] at hc
    by_cases hcond : ((pyRStrip as).isEmpty && isPySpace a) = true
    · simp only [hcond, if_pos] at hc
      simp at hc
    · simp only [hcond, Bool.false_eq_true, if_neg, if_false] at hc
      rcases hr : pyRStrip as with _ | ⟨b, r⟩
      · rw [hr] at hc
        simp only [List.getLast?_singleton, Option.some.injEq] at hc
        subst hc
        rw [hr] at hcond
        simp only [List.isEmpty_nil, Bool.true_and] at hcond
        exact Bool.not_eq_true _ ▸ (Bool.eq_false_iff.mpr hcond)
      · rw [hr] at hc
        rw [List.getLast?_cons_cons] at hc
        exact ih (hr ▸ hc)

theorem head_pyLStrip : ∀ {l : List Char} {c : Char},
    (pyLStrip l).head? = some c → isPySpace c = false := by
  intro l
  induction l with
  | nil => intro c hc; simp [pyLStrip, List.dropWhile] at hc
  | cons a as ih =>
    intro c hc
    rw [pyLStrip, List.dropWhile_cons] at hc
    by_cases ha : isPySpace a = true
    · rw [if_pos ha] at hc
      exact ih hc
    · rw [if_neg ha] at hc
      simp only [List.head?_cons, Option.some.injEq] at hc
      subst hc
      exact Bool.eq_false_iff.mpr ha

theorem collapseGo_eq_self : ∀ (l : List Char), (∀ c ∈ l, goodChar c = true) →
    noDbl l = true → ∀ b : Bool, (b = true → ∀ c, l.head? = some c → c ≠ sp) →
    collapseGo b l = l := by
  intro l
  induction l with
  | nil => intro _ _ b _; rfl
  | cons c cs ih =>
    intro hg hnd b hb
    by_cases hc : isLowerAlnum c = true
    · rw [collapseGo, if_pos hc]
      congr 1
      exact ih (fun d hd => hg d (List.mem_cons_of_mem c hd)) (noDbl_tail hnd) false
        (by intro h; cases h)
    · have hcs : c = sp := by
        rcases goodChar_cases (hg c (List.mem_cons_self c cs)) with h1 | h1
        · exact absurd h1 hc
        · exact h1
      cases b with
      | true => exact absurd hcs (hb rfl c rfl)
      | false =>
        rw [collapseGo, if_neg hc, if_neg Bool.false_ne_true]
        rw [hcs]
        congr 1
        refine ih (fun d hd => hg d (List.mem_cons_of_mem c hd)) (noDbl_tail hnd) true ?_
        intro _ d hd
        have := noDbl_head2 hnd hd
        rw [hcs] at this
        rw [beq_self_eq_true, Bool.true_and] at this
        exact beq_eq_false_iff_ne.mp this

theorem dropWhile_eq_self {p : Char → Bool} {l : List Char}
    (h : ∀ c, l.head? = some c → p c = false) : l.dropWhile p = l := by
  cases l with
  | nil => rfl
  | cons a as =>
    rw [List.dropWhile_cons, if_neg]
    rw [h a rfl]
    simp

theorem pyRStrip_eq_self : ∀ (l : List Char),
    (∀ c, l.getLast? = some c → isPySpace c = false) → pyRStrip l = l := by
  intro l
  induction l with
  | nil => intro _; rfl
  | cons a as ih =>
    intro h
    cases as with
    | nil =>
      rw [pyRStrip]
      have := h a rfl
      simp [pyRStrip, this]
    | cons b as' =>
      have has : pyRStrip (b :: as') = b :: as' := by
        refine ih ?_
        intro c hc
        exact h c (by rw [List.getLast?_cons_cons]; exact hc)
      rw [pyRStrip, has]
      simp

theorem map_id_of {f : Char → Char} : ∀ {l : List Char}, (∀ c ∈ l, f c = c) →
    l.map f = l := by
  intro l
  induction l with
  | nil => intro _; rfl
  | cons a as ih =>
    intro h
    rw [List.map_cons, h a (List.mem_cons_self a as), ih (fun c hc => h c (List.mem_cons_of_mem a hc))]

theorem filter_eq_self_of {p : Char → Bool} : ∀ {l : List Char}, (∀ c ∈ l, p c = true) →
    l.filter p = l := by
  intro l
  induction l with
  | nil => intro _; rfl
  | cons a as ih =>
    intro h
    rw [List.filter_cons, if_pos (h a (List.mem_cons_self a as)),
      ih (fun c hc => h c (List.mem_cons_of_mem a hc))]

/-- C3: `normalize_name` is idempotent.  `nfkd` embeds
`unicodedata.normalize("NFKD", ·)`; the hypothesis states the Unicode fact
that NFKD is the identity on ASCII-only strings, which is all the proof
needs because the first pass leaves only ASCII `[a-z0-9 ]` characters. -/
theorem normalize_name_idem (nfkd : List Char → List Char)
    (hascii : ∀ l : List Char, (∀ c ∈ l, c.toNat < 128) → nfkd l = l)
    (x : List Char) :
    normalize_name nfkd (normalize_name nfkd x) = normalize_name nfkd x := by
  set y := normalize_name nfkd x with hy
  have hmem : ∀ c ∈ y, goodChar c = true := by
    intro c hc
    rw [hy] at hc
    unfold normalize_name pyStrip pyLStrip at hc
    exact mem_collapseGo _ _ _ (mem_dropWhile (mem_pyRStrip hc))
  have hnd : noDbl y = true := by
    rw [hy]
    unfold normalize_name pyStrip pyLStrip
    exact noDbl_pyRStrip _ (noDbl_dropWhile _ _ (noDbl_collapseGo _ _))
  have hhead : ∀ c, y.head? = some c → isPySpace c = false := by
    intro c hc
    rw [hy] at hc
    unfold normalize_name pyStrip at hc
    exact head_pyLStrip (head_pyRStrip hc)
  have hlast : ∀ c, y.getLast? = some c → isPySpace c = false := by
    intro c hc
    rw [hy] at hc
    unfold normalize_name pyStrip at hc
    exact last_pyRStrip hc
  have h1 : nfkd y = y := hascii y (fun c hc => goodChar_lt128 (hmem c hc))
  have h2 : asciiFilter y = y := by
    unfold asciiFilter
    exact filter_eq_self_of (fun c hc => decide_eq_true (goodChar_lt128 (hmem c hc)))
  have h3 : y.map pyLowerChar = y :=
    map_id_of (fun c hc => goodChar_lower_id (hmem c hc))
  have h4 : collapseNonAlnum y = y := by
    unfold collapseNonAlnum
    refine collapseGo_eq_self y hmem hnd false ?_
    intro h; cases h
  have h5 : pyLStrip y = y := by
    unfold pyLStrip
    exact dropWhile_eq_self hhead
  have h6 : pyRStrip y = y := pyRStrip_eq_self y hlast
  calc normalize_name nfkd y
      = pyStrip (collapseNonAlnum ((asciiFilter (nfkd y)).map pyLowerChar)) := rfl
    _ = pyStrip (collapseNonAlnum y) := by rw [h1, h2, h3]
    _ = pyStrip y := by rw [h4]
    _ = y := by rw [pyStrip, h5, h6]

/-- Witness for C3: the theorem applied at `nfkd := id` (the identity
satisfies the ASCII hypothesis definitionally) and a concrete string. -/
theorem normalize_name_idem_witness :
    (∀ l : List Char, (∀ c ∈ l, c.toNat < 128) → id l = l) ∧
      normalize_name id (normalize_name id (String.toList "  Cafe!! 9 ")) =
        normalize_name id (String.toList "  Cafe!! 9 ") ∧
      normalize_name id (String.toList "  Cafe!! 9 ") = String.toList "cafe 9" :=
  ⟨fun _ _ => rfl,
   normalize_name_idem id (fun _ _ => rfl) (String.toList "  Cafe!! 9 "),
   by decide⟩

/-! ### Claim C7: numeric parsers are total and null on failure -/

theorem takeWhile_eq_nil_of_head {p : Char → Bool} {l : List Char}
    (h : ∀ c, l.head? = some c → p c = false) : l.takeWhile p = [] := by
  cases l with
  | nil => rfl
  | cons a as =>
    rw [List.takeWhile_cons, h a rfl]
    simp

theorem filter_eq_nil_of {p : Char → Bool} : ∀ {l : List Char},
    (∀ c ∈ l, p c = false) → l.filter p = [] := by
  intro l
  induction l with
  | nil => intro _; rfl
  | cons a as ih =>
    intro h
    rw [List.filter_cons, h a (List.mem_cons_self a as)]
    simp only [Bool.false_eq_true, if_false]
    exact ih (fun c hc => h c (List.mem_cons_of_mem a hc))

/-- C7: the numeric parsers are total functions (in this embedding, by
construction) and every parse failure yields `none` rather than an exception:
`parse_amount` returns `(none, none)` when the cleaned text has no leading
digit (so `AMOUNT_PATTERN` cannot match), `parse_percent` returns `none`
when `float` rejects the `%`-stripped text, and `parse_int` returns `none`
when the input has no digit at all.  `None` inputs are always `none`. -/
theorem numeric_parsers_null_on_failure :
    (parse_amount none = (none, none) ∧
      ∀ s : String, ((amountText s).head?.all fun c => !isAsciiDigit c) = true →
        parse_amount (some s) = (none, none)) ∧
    (parse_percent none = none ∧
      ∀ s : String, pyFloat? (percentText s) = none → parse_percent (some s) = none) ∧
    (parse_int none = none ∧
      ∀ s : String, (s.toList.all fun c => !isAsciiDigit c) = true →
        parse_int (some s) = none) := by
  refine ⟨⟨rfl, ?_⟩, ⟨rfl, ?_⟩, ⟨rfl, ?_⟩⟩
  · intro s hall
    by_cases hs : s = ""
    · subst hs; rfl
    · have hhead : ∀ c, (amountText s).head? = some c → isAsciiDigit c = false := by
        intro c hc
        rw [hc] at hall
        simpa using hall
      have hmatch : amountMatch (amountText s) = none := by
        unfold amountMatch
        rw [takeWhile_eq_nil_of_head hhead, if_pos rfl]
      simp only [parse_amount, if_neg hs, hmatch]
  · intro s hf
    by_cases hs : s = ""
    · subst hs; rfl
    · simp only [parse_percent, if_neg hs, hf]
  · intro s hall
    by_cases hs : s = ""
    · subst hs; rfl
    · have hnil : s.toList.filter isAsciiDigit = [] := by
        refine filter_eq_nil_of ?_
        intro c hc
        have := List.all_eq_true.mp hall c hc
        simpa using this
      unfold parse_int
      dsimp only
      rw [if_neg hs, hnil]
      rfl

/-- Witness for C7 at concrete failing inputs. -/
theorem numeric_parsers_null_on_failure_witness :
    parse_amount (some "mg only") = (none, none) ∧ parse_percent (some "—") = none ∧
      parse_int (some "mg") = none :=
  ⟨numeric_parsers_null_on_failure.1.2 "mg only" (by decide),
   numeric_parsers_null_on_failure.2.1.2 "—" (by decide),
   numeric_parsers_null_on_failure.2.2.2 "mg" (by decide)⟩

/-! ### Claim C8: ingredients parsing -/

/-- C8: the ingredients block parse strips one leading case-insensitive
`Ingredients:` label; an empty trimmed remainder yields no `Ingredients`
value at all, a non-empty remainder yields `raw` equal to the remainder and
`list` the comma-boundary token split (tokens keep their punctuation, as the
concrete example shows). -/
theorem ingredients_parse :
    parse_ingredients_block "Ingredients: Wheat, Water, Salt." =
      some ⟨"Wheat, Water, Salt.", some ["Wheat", "Water", "Salt."]⟩ ∧
    (∀ t : String, pyStrip (stripIngLabel t.toList) = [] →
      parse_ingredients_block t = none) ∧
    (∀ t : String, pyStrip (stripIngLabel t.toList) ≠ [] →
      parse_ingredients_block t =
        some ⟨String.mk (pyStrip (stripIngLabel t.toList)),
          if ingTokens (pyStrip (stripIngLabel t.toList)) = [] then none
          else some ((ingTokens (pyStrip (stripIngLabel t.toList))).map
            (fun w => String.mk w))⟩) := by
  refine ⟨by decide, ?_, ?_⟩
  · intro t ht
    unfold parse_ingredients_block
    rw [ht]
    rfl
  · intro t ht
    unfold parse_ingredients_block
    rw [if_neg ht]

/-- Witness for C8: an all-label block produces no value; a labelled block
keeps the trailing period on the last token. -/
theorem ingredients_parse_witness :
    parse_ingredients_block "Ingredients:   " = none ∧
      parse_ingredients_block "INGREDIENTS: Salt." =
        some ⟨String.mk (pyStrip (stripIngLabel "INGREDIENTS: Salt.".toList)),
          if ingTokens (pyStrip (stripIngLabel "INGREDIENTS: Salt.".toList)) = [] then none
          else some ((ingTokens (pyStrip (stripIngLabel "INGREDIENTS: Salt.".toList))).map
            (fun w => String.mk w))⟩ :=
  ⟨ingredients_parse.2.1 "Ingredients:   " (by decide),
   ingredients_parse.2.2 "INGREDIENTS: Salt." (by decide)⟩

/-! ### Claim C1: the nutrition cache fetches once per detail id -/

/-- C1: on a cache miss with a successful transport and parse,
`fetch_nutrition` issues exactly one transport request (the request log grows
by exactly `[d]`), stores the parsed label, and returns it; any call on a
state whose cache holds `d` returns the identical cached structure with the
state — in particular the request log — untouched; and the cache entry for
`d` survives any later `fetch_nutrition` call. -/
theorem fetch_nutrition_caches {P : Type u} {L : Type v} (env : FetchEnv P L) (d : Int)
    (st : FetchState L) (p : P) (lab : L)
    (hmiss : cacheLookup st.cache d = none) (hnet : env.net d = Except.ok p)
    (hparse : env.parseLabel p = Except.ok lab) :
    fetch_nutrition env d st =
      (Except.ok lab, ⟨(d, lab) :: st.cache, st.requests ++ [d]⟩) ∧
    (∀ st2 : FetchState L, cacheLookup st2.cache d = some lab →
      fetch_nutrition env d st2 = (Except.ok lab, st2)) ∧
    (∀ (d2 : Int) (st2 : FetchState L), cacheLookup st2.cache d = some lab →
      cacheLookup ((fetch_nutrition env d2 st2).2).cache d = some lab) := by
  refine ⟨?_, ?_, ?_⟩
  · simp only [fetch_nutrition, hmiss, hnet, hparse]
  · intro st2 h2
    simp only [fetch_nutrition, h2]
  · intro d2 st2 h2
    unfold fetch_nutrition
    cases hc2 : cacheLookup st2.cache d2 with
    | some lab2 => exact h2
    | none =>
      dsimp only
      cases hn2 : env.net d2 with
      | error e2 => exact h2
      | ok pg =>
        dsimp only
        cases hp2 : env.parseLabel pg with
        | error e2 => exact h2
        | ok lab2 =>
          dsimp only
          have hne : (d2 == d) = false := by
            refine beq_eq_false_iff_ne.mpr ?_
            intro he
            rw [he, h2] at hc2
            cases hc2
          simp only [cacheLookup] at h2 ⊢
          rw [List.find?_cons_of_neg _ (by simp [hne])]
          exact h2

/-- Witness for C1 at a concrete transport oracle. -/
theorem fetch_nutrition_caches_witness :
    cacheLookup (emptyFetchState.cache) 3 = none ∧
    fetch_nutrition (FetchEnv.mk (fun _ => Except.ok 5) (fun q => Except.ok (q + 1)) :
        FetchEnv Nat Nat) 3 emptyFetchState = (Except.ok 6, ⟨[(3, 6)], [3]⟩) ∧
    fetch_nutrition (FetchEnv.mk (fun _ => Except.ok 5) (fun q => Except.ok (q + 1)) :
        FetchEnv Nat Nat) 3 ⟨[(3, 6)], [3]⟩ = (Except.ok 6, ⟨[(3, 6)], [3]⟩) := by
  refine ⟨rfl, ?_, ?_⟩
  · exact (fetch_nutrition_caches _ 3 emptyFetchState 5 6 rfl rfl rfl).1
  · exact (fetch_nutrition_caches _ 3 emptyFetchState 5 6 rfl rfl rfl).2.1 ⟨[(3, 6)], [3]⟩ rfl

/-! ### Claim C9: `fetch_nutrition` is cache-atomic on error -/

/-- C9: if the transport request or the label parse for a cache miss raises,
`fetch_nutrition` propagates the exception with the cache exactly as before
(no partial entry is stored — only the request log records the attempt), and
a later fetch for the same still-missing id attempts the network again. -/
theorem fetch_nutrition_error_atomic {P : Type u} {L : Type v} (env : FetchEnv P L)
    (d : Int) (st : FetchState L) (e : String)
    (hmiss : cacheLookup st.cache d = none)
    (herr : env.net d = Except.error e ∨
      ∃ p, env.net d = Except.ok p ∧ env.parseLabel p = Except.error e) :
    fetch_nutrition env d st = (Except.error e, ⟨st.cache, st.requests ++ [d]⟩) ∧
    (∀ st3 : FetchState L, cacheLookup st3.cache d = none →
      (fetch_nutrition env d st3).2.requests = st3.requests ++ [d]) := by
  constructor
  · rcases herr with hn | ⟨p, hn, hp⟩
    · simp only [fetch_nutrition, hmiss, hn]
    · simp only [fetch_nutrition, hmiss, hn, hp]
  · intro st3 h3
    unfold fetch_nutrition
    cases hc3 : cacheLookup st3.cache d with
    | some lab2 => rw [hc3] at h3; cases h3
    | none =>
      dsimp only
      cases env.net d with
      | error e2 => rfl
      | ok pg =>
        dsimp only
        cases env.parseLabel pg with
        | error e2 => rfl
        | ok lab2 => rfl

/-- Witness for C9 with a transport oracle that raises. -/
theorem fetch_nutrition_error_atomic_witness :
    cacheLookup (emptyFetchState.cache) 3 = none ∧
    fetch_nutrition (FetchEnv.mk (fun _ => Except.error "HTTPError 500")
        (fun q => Except.ok q) : FetchEnv Nat Nat) 3 emptyFetchState =
      (Except.error "HTTPError 500", ⟨[], [3]⟩) :=
  ⟨rfl,
   (fetch_nutrition_error_atomic _ 3 emptyFetchState "HTTPError 500" rfl (Or.inl rfl)).1⟩

/-! ### Claim C2: venue failures are contained (amended) -/

/-- C2 (amended): a venue whose processing raises is recorded as
`{unit_id, name, error, categories: []}` where `error` is the exception's
message `str(exc)` — non-empty exactly when the message is — and the loop
continues with the remaining venues exactly as a fresh loop would process
them; the run never aborts (one record per venue). -/
theorem mainLoop_failure_containment {L : Type v} {σ : Type w}
    (process : VenueUnit → σ → Except String (List (Category L)) × σ) :
    (∀ (units : List VenueUnit) (s : σ), (mainLoop process units s).length = units.length) ∧
    (∀ (u : VenueUnit) (us : List VenueUnit) (s : σ) (e : String) (s2 : σ),
      process u s = (Except.error e, s2) →
      mainLoop process (u :: us) s = failRecord u e :: mainLoop process us s2) ∧
    (∀ (u : VenueUnit) (us : List VenueUnit) (s : σ) (cats : List (Category L)) (s2 : σ),
      process u s = (Except.ok cats, s2) →
      mainLoop process (u :: us) s = okRecord u cats :: mainLoop process us s2) ∧
    (∀ (u : VenueUnit) (e : String),
      (failRecord u e : UnitRecord L).error = some e ∧
        (failRecord u e : UnitRecord L).categories = []) := by
  refine ⟨?_, ?_, ?_, ?_⟩
  · intro units
    induction units with
    | nil => intro s; rfl
    | cons u us ih =>
      intro s
      rw [mainLoop]
      rcases hp : process u s with ⟨r, s2⟩
      cases r with
      | error e => simp [ih s2]
      | ok cats => simp [ih s2]
  · intro u us s e s2 hp
    rw [mainLoop, hp]
  · intro u us s cats s2 hp
    rw [mainLoop, hp]
  · intro u e
    exact ⟨rfl, rfl⟩

/-- Counterexample to C2 as stated: `str(exc)` can be empty (e.g. an
exception constructed with no message), in which case the recorded `error`
field is the empty string — the record still has the claimed shape, but its
`error` is not a non-empty string. -/
theorem mainLoop_empty_error_counterexample :
    mainLoop emptyErrorProcess [⟨1, "Grace Cafe"⟩] 0 =
      [⟨1, "Grace Cafe", some "", none, none, []⟩] ∧
    (mainLoop emptyErrorProcess [⟨1, "Grace Cafe"⟩] 0).map (fun r => r.error) =
      [some ""] :=
  ⟨rfl, rfl⟩

/-- Witness for C2: a run where the first venue raises `"HTTP 500"` and the
second venue still produces its full (empty-menu) record. -/
theorem mainLoop_failure_containment_witness :
    mainLoop
        (fun (u : VenueUnit) (s : Nat) =>
          if u.id = 1 then (Except.error "HTTP 500", s)
          else (Except.ok ([] : List (Category Nat)), s))
        [⟨1, "A"⟩, ⟨2, "B"⟩] 0 =
      failRecord ⟨1, "A"⟩ "HTTP 500" ::
        mainLoop
          (fun (u : VenueUnit) (s : Nat) =>
            if u.id = 1 then (Except.error "HTTP 500", s)
            else (Except.ok ([] : List (Category Nat)), s))
          [⟨2, "B"⟩] 0 :=
  (mainLoop_failure_containment _).2.1 ⟨1, "A"⟩ [⟨2, "B"⟩] 0 "HTTP 500" 0 rfl

/-! ### Claim C10: every emitted unit has a non-empty name -/

theorem extract_units_step_names {acc : UnitsAcc} {a : Node}
    (h : ∀ u ∈ acc.units, u.name ≠ "") :
    ∀ u ∈ (extract_units_step acc a).units, u.name ≠ "" := by
  unfold extract_units_step
  cases a.attr? "data-unitoid" with
  | none => exact h
  | some raw =>
    dsimp only
    by_cases h1 : (raw = "" || raw = "-1") = true
    · rw [if_pos h1]; exact h
    · rw [if_neg h1]
      cases pyInt? raw.toList with
      | none => exact h
      | some unit_id =>
        dsimp only
        by_cases h2 : acc.seen.contains unit_id = true
        · rw [if_pos h2]; exact h
        · rw [if_neg h2]
          by_cases h3 : (a.getText "" = "" || lowerS (a.getText "") = "show all units") = true
          · rw [if_pos h3]; exact h
          · rw [if_neg h3]
            intro u hu
            rcases List.mem_append.mp hu with hu1 | hu1
            · exact h u hu1
            · rcases List.mem_singleton.mp hu1 with rfl
              simp only [Bool.or_eq_true, decide_eq_true_eq, not_or] at h3
              exact h3.1

theorem extract_units_fold_names : ∀ (anchors : List Node) (acc : UnitsAcc),
    (∀ u ∈ acc.units, u.name ≠ "") →
    ∀ u ∈ (anchors.foldl extract_units_step acc).units, u.name ≠ "" := by
  intro anchors
  induction anchors with
  | nil => intro acc h; exact h
  | cons a as ih =>
    intro acc h
    rw [List.foldl_cons]
    exact ih _ (extract_units_step_names h)

/-- C10: every unit emitted by `extract_units` has a non-empty name; in
particular an element carrying a valid, previously unseen venue id whose
stripped text content is empty is skipped with the loop state untouched. -/
theorem extract_units_nonempty_names :
    (∀ (roots : List Node), ∀ u ∈ extract_units roots, u.name ≠ "") ∧
    (∀ (acc : UnitsAcc) (anchor : Node) (raw : String) (i : Int),
      anchor.attr? "data-unitoid" = some raw → raw ≠ "" → raw ≠ "-1" →
      pyInt? raw.toList = some i → acc.seen.contains i = false →
      anchor.getText "" = "" → extract_units_step acc anchor = acc) := by
  constructor
  · intro roots
    exact extract_units_fold_names _ ⟨[], []⟩ (by intro u hu; cases hu)
  · intro acc anchor raw i hattr hne hns hint hseen htext
    unfold extract_units_step
    rw [hattr]
    dsimp only
    rw [if_neg (by simp [hne, hns]), hint]
    dsimp only
    rw [if_neg (by rw [hseen]; simp), if_pos (by simp [htext])]

/-- Witness for C10: a concrete homepage fragment with one named venue, and a
skipped anchor (valid fresh id, empty text). -/
theorem extract_units_nonempty_names_witness :
    extract_units [Node.elem "a" [("data-unitoid", "4")] [Node.text "West Union"]] =
      [⟨4, "West Union"⟩] ∧
    (⟨4, "West Union"⟩ : UnitEntry).name ≠ "" ∧
    extract_units_step ⟨[], []⟩ (Node.elem "a" [("data-unitoid", "9")] []) = ⟨[], []⟩ := by
  refine ⟨rfl, ?_, ?_⟩
  · exact extract_units_nonempty_names.1
      [Node.elem "a" [("data-unitoid", "4")] [Node.text "West Union"]]
      ⟨4, "West Union"⟩ (by rw [show extract_units [Node.elem "a" [("data-unitoid", "4")]
        [Node.text "West Union"]] = [⟨4, "West Union"⟩] from rfl]; exact List.mem_singleton.mpr rfl)
  · exact extract_units_nonempty_names.2 ⟨[], []⟩
      (Node.elem "a" [("data-unitoid", "9")] []) "9" 9 rfl (by decide) (by decide) rfl rfl rfl

/-! ### Claim C6: rows with too few cells or an empty name yield no Item -/

/-- C6: `build_item` yields no item when the row has fewer than 2 cells
(cells belonging to this row, not to a nested row — source lines 185-189),
and yields no item when the resolved name is empty (source lines 194-196);
a 1-cell row is the witness's instance of the first part. -/
theorem build_item_drops {P : Type u} {L : Type v} (env : FetchEnv P L) (row : Node)
    (st : FetchState L) :
    ((Node.cells row).length < 2 → build_item env row st = (Except.ok none, st)) ∧
    (∀ (c0 c1 : Node) (rest : List Node), Node.cells row = c0 :: c1 :: rest →
      extract_item_name c1 = none → build_item env row st = (Except.ok none, st)) := by
  constructor
  · intro hlen
    unfold build_item
    rcases hc : Node.cells row with _ | ⟨c0, _ | ⟨c1, rest⟩⟩
    · rfl
    · rfl
    · rw [hc] at hlen
      simp at hlen
      omega
  · intro c0 c1 rest hc hn
    unfold build_item
    rw [hc]
    dsimp only
    rw [hn]

/-- Witness for C6: a 1-cell row and a 2-cell row whose name cell is empty. -/
theorem build_item_drops_witness :
    (Node.cells (Node.elem "tr" [] [Node.elem "td" [] [Node.text "only"]])).length < 2 ∧
    build_item zeroDetailEnv (Node.elem "tr" [] [Node.elem "td" [] [Node.text "only"]])
      emptyFetchState = (Except.ok none, emptyFetchState) ∧
    extract_item_name (Node.elem "td" [] []) = none ∧
    build_item zeroDetailEnv
      (Node.elem "tr" [] [Node.elem "td" [] [Node.text "x"], Node.elem "td" [] []])
      emptyFetchState = (Except.ok none, emptyFetchState) := by
  refine ⟨by decide, ?_, rfl, ?_⟩
  · exact (build_item_drops zeroDetailEnv _ emptyFetchState).1 (by decide)
  · exact (build_item_drops zeroDetailEnv
      (Node.elem "tr" [] [Node.elem "td" [] [Node.text "x"], Node.elem "td" [] []])
      emptyFetchState).2 (Node.elem "td" [] [Node.text "x"]) (Node.elem "td" [] []) [] rfl rfl

/-! ### Claim C4: nutrition is fetched for truthy detail ids (amended) -/

/-- C4 (amended): for a row that yields an item, when the resolved detail id
is non-null AND non-zero, `build_item` invokes the nutrition fetcher with
that id and attaches its result as the item's `nutrition`; when the resolved
id is null OR zero (Python's `if detail_id:` truthiness, source line 208), no
fetch occurs (the fetch state is untouched) and the item has no nutrition
value — though a zero id is still recorded in `detail_id`. -/
theorem build_item_nutrition_amended {P : Type u} {L : Type v} (env : FetchEnv P L)
    (row : Node) (st : FetchState L) (c0 c1 : Node) (rest : List Node) (nm : String)
    (hc : Node.cells row = c0 :: c1 :: rest) (hn : extract_item_name c1 = some nm) :
    (∀ (d : Int) (lab : L) (st2 : FetchState L), extract_detail_id c0 c1 = some d →
      d ≠ 0 → fetch_nutrition env d st = (Except.ok lab, st2) →
      ∃ it : Item L, build_item env row st = (Except.ok (some it), st2) ∧
        it.nutrition = some lab ∧ it.detail_id = some d) ∧
    (extract_detail_id c0 c1 = none →
      ∃ it : Item L, build_item env row st = (Except.ok (some it), st) ∧
        it.nutrition = none ∧ it.detail_id = none) ∧
    (extract_detail_id c0 c1 = some 0 →
      ∃ it : Item L, build_item env row st = (Except.ok (some it), st) ∧
        it.nutrition = none ∧ it.detail_id = some 0) := by
  refine ⟨?_, ?_, ?_⟩
  · intro d lab st2 hd hd0 hf
    unfold build_item
    rw [hc]
    dsimp only
    rw [hn, hd]
    dsimp only
    rw [if_neg hd0, hf]
    exact ⟨_, rfl, rfl, rfl⟩
  · intro hd
    unfold build_item
    rw [hc]
    dsimp only
    rw [hn, hd]
    exact ⟨_, rfl, rfl, rfl⟩
  · intro hd
    unfold build_item
    rw [hc]
    dsimp only
    rw [hn, hd]
    dsimp only
    rw [if_pos rfl]
    exact ⟨_, rfl, rfl, rfl⟩

/-- Counterexample to C4 as stated: a row whose action control carries
`data-detailoid="0"` resolves to the non-null detail id `0`, yet `build_item`
performs no fetch (the fetch state, including the request log, is unchanged)
and the resulting item has no nutrition value, because the source tests
Python truthiness (`if detail_id:`), not non-nullness. -/
theorem build_item_zero_detail_counterexample :
    extract_detail_id zeroDetailActionCell zeroDetailNameCell = some 0 ∧
    build_item zeroDetailEnv zeroDetailRow emptyFetchState =
      (Except.ok (some ⟨some 0, "Apple", none, [], none, none, none⟩), emptyFetchState) ∧
    emptyFetchState.requests = [] :=
  ⟨rfl, rfl, rfl⟩

/-- Witness for C4 (amended) on a concrete successful fetch. -/
theorem build_item_nutrition_amended_witness :
    Node.cells (Node.elem "tr" [("data-categoryid", "2")]
        [Node.elem "td" [] [Node.elem "a" [("data-detailoid", "5")] []],
         Node.elem "td" [] [Node.text "Bagel"]]) =
      [Node.elem "td" [] [Node.elem "a" [("data-detailoid", "5")] []],
       Node.elem "td" [] [Node.text "Bagel"]] ∧
    extract_item_name (Node.elem "td" [] [Node.text "Bagel"]) = some "Bagel" ∧
    extract_detail_id (Node.elem "td" [] [Node.elem "a" [("data-detailoid", "5")] []])
      (Node.elem "td" [] [Node.text "Bagel"]) = some 5 ∧
    fetch_nutrition (FetchEnv.mk (fun _ => Except.ok 9) (fun q => Except.ok (q + 1)) :
        FetchEnv Nat Nat) 5 emptyFetchState = (Except.ok 10, ⟨[(5, 10)], [5]⟩) ∧
    (∃ it : Item Nat,
      build_item (FetchEnv.mk (fun _ => Except.ok 9) (fun q => Except.ok (q + 1)))
          (Node.elem "tr" [("data-categoryid", "2")]
            [Node.elem "td" [] [Node.elem "a" [("data-detailoid", "5")] []],
             Node.elem "td" [] [Node.text "Bagel"]]) emptyFetchState =
        (Except.ok (some it), ⟨[(5, 10)], [5]⟩) ∧
      it.nutrition = some 10 ∧ it.detail_id = some 5) := by
  refine ⟨rfl, rfl, rfl, rfl, ?_⟩
  exact (build_item_nutrition_amended
    (FetchEnv.mk (fun _ => Except.ok 9) (fun q => Except.ok (q + 1)))
    (Node.elem "tr" [("data-categoryid", "2")]
      [Node.elem "td" [] [Node.elem "a" [("data-detailoid", "5")] []],
       Node.elem "td" [] [Node.text "Bagel"]]) emptyFetchState
    (Node.elem "td" [] [Node.elem "a" [("data-detailoid", "5")] []])
    (Node.elem "td" [] [Node.text "Bagel"]) [] "Bagel" rfl rfl).1
    5 10 ⟨[(5, 10)], [5]⟩ rfl (by decide) rfl

/-! ### Claim C5: item rows attach to the right category -/

theorem mem_of_getElem?' {α : Type u} {l : List α} {i : Nat} {a : α}
    (h : l[i]? = some a) : a ∈ l := by
  obtain ⟨hi, hv⟩ := List.getElem?_eq_some.mp h
  exact hv ▸ List.getElem_mem hi

theorem setItemsAt_getElem? {L : Type v} : ∀ (cats : List (Category L)) (i : Nat)
    (it : Item L) (j : Nat),
    (setItemsAt cats i it)[j]? =
      if j = i then (cats[j]?).map (fun c => { c with items := c.items ++ [it] })
      else cats[j]? := by
  intro cats
  induction cats with
  | nil => intro i it j; simp [setItemsAt]
  | cons c cs ih =>
    intro i it j
    cases i with
    | zero =>
      cases j with
      | zero => simp [setItemsAt]
      | succ j' => simp [setItemsAt, Nat.succ_ne_zero]
    | succ i' =>
      cases j with
      | zero => simp [setItemsAt, (Nat.succ_ne_zero i').symm]
      | succ j' =>
        simp only [setItemsAt, List.getElem?_cons_succ]
        rw [ih i' it j']
        by_cases hj : j' = i'
        · rw [if_pos hj, if_pos (by omega)]
        · rw [if_neg hj, if_neg (by omega)]

theorem lookupIdx_cons {k : String} {n : Nat} {lk : List (String × Nat)} {s : String} :
    lookupIdx ((k, n) :: lk) s = if (k == s) = true then some n else lookupIdx lk s := by
  by_cases h : (k == s) = true
  · rw [if_pos h]
    unfold lookupIdx
    rw [@List.find?_cons_of_pos (String × Nat) (fun p => p.1 == s) (k, n) lk h]
    rfl
  · rw [if_neg h]
    unfold lookupIdx
    rw [@List.find?_cons_of_neg (String × Nat) (fun p => p.1 == s) (k, n) lk h]

theorem panelInv_init {L : Type v} (fs0 : FetchState L) :
    panelInv (⟨[], [], fs0⟩ : PanelState L) := by
  constructor
  · intro s i h
    simp [lookupIdx, List.find?] at h
  · intro i c s hget _
    simp at hget

theorem panelInv_categoryRow {L : Type v} {st : PanelState L} (hinv : panelInv st)
    (cat : Category L) (fsx : FetchState L) :
    panelInv (⟨st.categories ++ [cat],
      match cat.category_id with
      | some n => (toString n, st.categories.length) :: st.lookup
      | none => st.lookup, fsx⟩ : PanelState L) := by
  cases hid : cat.category_id with
  | some n =>
    constructor
    · intro s i h
      simp only [hid] at h
      rw [lookupIdx_cons] at h
      by_cases hk : (toString n == s) = true
      · rw [if_pos hk] at h
        injection h with h
        subst h
        refine ⟨cat, ?_, ?_⟩
        · exact List.getElem?_concat_length st.categories cat
        · rw [catKey, hid]
          exact congrArg some (eq_of_beq hk)
      · rw [if_neg hk] at h
        obtain ⟨c, hc, hkey⟩ := hinv.1 s i h
        have hi : i < st.categories.length := by
          obtain ⟨hlt, _⟩ := List.getElem?_eq_some.mp hc
          exact hlt
        exact ⟨c, by rw [List.getElem?_append, if_pos hi]; exact hc, hkey⟩
    · intro i c s hget hkey
      by_cases hi : i < st.categories.length
      · rw [List.getElem?_append, if_pos hi] at hget
        have hold := hinv.2 i c s hget hkey
        simp only [hid]
        rw [lookupIdx_cons]
        by_cases hk : (toString n == s) = true
        · rw [if_pos hk]; exact fun h => by cases h
        · rw [if_neg hk]; exact hold
      · rw [List.getElem?_append, if_neg hi] at hget
        rcases hd : i - st.categories.length with _ | k
        · rw [hd] at hget
          simp only [List.getElem?_cons_zero] at hget
          injection hget with hget
          subst hget
          rw [catKey, hid] at hkey
          injection hkey with hkey
          simp only [hid]
          rw [lookupIdx_cons, if_pos (beq_iff_eq.mpr hkey)]
          exact fun h => by cases h
        · rw [hd] at hget
          simp at hget
  | none =>
    constructor
    · intro s i h
      simp only [hid] at h
      obtain ⟨c, hc, hkey⟩ := hinv.1 s i h
      have hi : i < st.categories.length := by
        obtain ⟨hlt, _⟩ := List.getElem?_eq_some.mp hc
        exact hlt
      exact ⟨c, by rw [List.getElem?_append, if_pos hi]; exact hc, hkey⟩
    · intro i c s hget hkey
      by_cases hi : i < st.categories.length
      · rw [List.getElem?_append, if_pos hi] at hget
        simp only [hid]
        exact hinv.2 i c s hget hkey
      · rw [List.getElem?_append, if_neg hi] at hget
        rcases hd : i - st.categories.length with _ | k
        · rw [hd] at hget
          simp only [List.getElem?_cons_zero] at hget
          injection hget with hget
          subst hget
          rw [catKey, hid] at hkey
          cases hkey
        · rw [hd] at hget
          simp at hget

theorem panelInv_setItems {L : Type v} {st : PanelState L} (hinv : panelInv st)
    (i : Nat) (it : Item L) (fsx : FetchState L) :
    panelInv (⟨setItemsAt st.categories i it, st.lookup, fsx⟩ : PanelState L) := by
  constructor
  · intro s j h
    obtain ⟨c, hc, hkey⟩ := hinv.1 s j h
    simp only
    rw [setItemsAt_getElem?]
    by_cases hj : j = i
    · rw [if_pos hj, hc]
      exact ⟨_, rfl, hkey⟩
    · rw [if_neg hj]
      exact ⟨c, hc, hkey⟩
  · intro j c s hget hkey
    simp only at hget
    rw [setItemsAt_getElem?] at hget
    by_cases hj : j = i
    · rw [if_pos hj] at hget
      rcases hc0 : st.categories[j]? with _ | c0
      · rw [hc0] at hget; cases hget
      · rw [hc0] at hget
        injection hget with hget
        subst hget
        exact hinv.2 j c0 s hc0 hkey
    · rw [if_neg hj] at hget
      exact hinv.2 j c s hget hkey

theorem panelInv_step {P : Type u} {L : Type v} {env : FetchEnv P L}
    {st st2 : PanelState L} {row : Node} (hinv : panelInv st)
    (hstep : panelRowStep env st row = Except.ok st2) : panelInv st2 := by
  unfold panelRowStep at hstep
  by_cases hcl : ((rowClasses row).contains "cbo_nn_itemGroupRow") = true
  · rw [if_pos hcl] at hstep
    injection hstep with hstep
    subst hstep
    exact panelInv_categoryRow hinv (build_category row) st.fs
  · rw [if_neg hcl] at hstep
    cases hattr : row.attr? "data-categoryid" with
    | none =>
      rw [hattr] at hstep
      injection hstep with hstep
      subst hstep
      exact hinv
    | some s =>
      rw [hattr] at hstep
      dsimp only at hstep
      cases hat : attachTarget st s with
      | none =>
        rw [hat] at hstep
        injection hstep with hstep
        subst hstep
        exact hinv
      | some i =>
        rw [hat] at hstep
        dsimp only at hstep
        rcases hbi : build_item env row st.fs with ⟨r, fs2⟩
        rw [hbi] at hstep
        cases r with
        | error e => cases hstep
        | ok oit =>
          cases oit with
          | none =>
            injection hstep with hstep
            subst hstep
            exact ⟨hinv.1, hinv.2⟩
          | some it =>
            injection hstep with hstep
            subst hstep
            exact panelInv_setItems hinv i it fs2

theorem panelInv_processRows {P : Type u} {L : Type v} {env : FetchEnv P L} :
    ∀ (rows : List Node) (st st2 : PanelState L), panelInv st →
    processRows env rows st = Except.ok st2 → panelInv st2 := by
  intro rows
  induction rows with
  | nil =>
    intro st st2 hinv h
    injection h with h
    subst h
    exact hinv
  | cons r rs ih =>
    intro st st2 hinv h
    unfold processRows at h
    cases hs1 : panelRowStep env st r with
    | error e => rw [hs1] at h; cases h
    | ok stm =>
      rw [hs1] at h
      exact ih stm st2 (panelInv_step hinv hs1) h

/-- C5: in any panel-parser state reached from the start of a panel parse, an
item row carrying owning-category attribute `s` attaches to a category whose
registered id-string matches `s` whenever such a category exists; with no
match but at least one category it attaches to the most recently appended
category (the last one); and with no categories at all the row is dropped
and the state is left untouched. -/
theorem panel_attach_correct {P : Type u} {L : Type v} (env : FetchEnv P L)
    (rows : List Node) (fs0 : FetchState L) (st : PanelState L) (row : Node) (s : String)
    (hreach : processRows env rows ⟨[], [], fs0⟩ = Except.ok st)
    (hcls : ((rowClasses row).contains "cbo_nn_itemGroupRow") = false)
    (hattr : row.attr? "data-categoryid" = some s) :
    attachSpec env st row s := by
  have hinv : panelInv st := panelInv_processRows rows _ st (panelInv_init fs0) hreach
  have hstep : ∀ (i : Nat), attachTarget st s = some i →
      ∀ (it : Item L) (fs2 : FetchState L),
      build_item env row st.fs = (Except.ok (some it), fs2) →
      panelRowStep env st row =
        Except.ok ⟨setItemsAt st.categories i it, st.lookup, fs2⟩ := by
    intro i hat it fs2 hbi
    unfold panelRowStep
    rw [if_neg (by rw [hcls]; exact Bool.false_ne_true), hattr]
    dsimp only
    rw [hat]
    dsimp only
    rw [hbi]
  refine ⟨?_, ?_, ?_⟩
  · rintro ⟨c, hcmem, hckey⟩
    obtain ⟨i0, hi0⟩ := List.getElem?_of_mem hcmem
    have hne := hinv.2 i0 c s hi0 hckey
    rcases hlk : lookupIdx st.lookup s with _ | i
    · exact absurd hlk hne
    · obtain ⟨c2, hc2, hk2⟩ := hinv.1 s i hlk
      have hat : attachTarget st s = some i := by
        unfold attachTarget
        rw [hlk]
      exact ⟨i, c2, hat, hc2, hk2, hstep i hat⟩
  · rintro ⟨hnone, hnempty⟩
    have hlk : lookupIdx st.lookup s = none := by
      rcases hlk2 : lookupIdx st.lookup s with _ | i
      · rfl
      · obtain ⟨c2, hc2, hk2⟩ := hinv.1 s i hlk2
        exact absurd hk2 (hnone c2 (mem_of_getElem?' hc2))
    have hat : attachTarget st s = some (st.categories.length - 1) := by
      unfold attachTarget
      rw [hlk]
      rw [if_neg (by simp only [List.isEmpty_iff]; exact hnempty)]
    exact ⟨hat, hstep _ hat⟩
  · intro hcats
    have hlk : lookupIdx st.lookup s = none := by
      rcases hlk2 : lookupIdx st.lookup s with _ | i
      · rfl
      · obtain ⟨c2, hc2, _⟩ := hinv.1 s i hlk2
        rw [hcats] at hc2
        simp at hc2
    have hat : attachTarget st s = none := by
      unfold attachTarget
      rw [hlk, hcats]
      rfl
    unfold panelRowStep
    rw [if_neg (by rw [hcls]; exact Bool.false_ne_true), hattr]
    dsimp only
    rw [hat]

/-- Witness for C5: after processing one concrete category row (id 7), an
item row with `data-categoryid="7"` satisfies the attach specification. -/
theorem panel_attach_correct_witness :
    processRows zeroDetailEnv
        [Node.elem "tr"
          [("class", "cbo_nn_itemGroupRow"), ("onclick", "toggleCourseItems(this, 7)")]
          [Node.text "Snacks"]] ⟨[], [], emptyFetchState⟩ =
      Except.ok ⟨[⟨some 7, "Snacks", none, "Snacks", []⟩], [("7", 0)], emptyFetchState⟩ ∧
    ((rowClasses (Node.elem "tr" [("data-categoryid", "7")]
      [Node.elem "td" [] [], Node.elem "td" [] [Node.text "Chips"]])).contains
        "cbo_nn_itemGroupRow") = false ∧
    (Node.elem "tr" [("data-categoryid", "7")]
      [Node.elem "td" [] [], Node.elem "td" [] [Node.text "Chips"]]).attr?
        "data-categoryid" = some "7" ∧
    attachSpec zeroDetailEnv
      ⟨[⟨some 7, "Snacks", none, "Snacks", []⟩], [("7", 0)], emptyFetchState⟩
      (Node.elem "tr" [("data-categoryid", "7")]
        [Node.elem "td" [] [], Node.elem "td" [] [Node.text "Chips"]]) "7" := by
  refine ⟨rfl, rfl, rfl, ?_⟩
  exact panel_attach_correct zeroDetailEnv
    [Node.elem "tr"
      [("class", "cbo_nn_itemGroupRow"), ("onclick", "toggleCourseItems(this, 7)")]
      [Node.text "Snacks"]] emptyFetchState
    ⟨[⟨some 7, "Snacks", none, "Snacks", []⟩], [("7", 0)], emptyFetchState⟩
    (Node.elem "tr" [("data-categoryid", "7")]
      [Node.elem "td" [] [], Node.elem "td" [] [Node.text "Chips"]]) "7" rfl rfl rfl

end Aurora
